import Mathlib

/-!
# Verification of `fillfs` (src/fillfs.c)

A shallow embedding of the fillfs disk-filling utility: the size-string
parser `parse_size`, the fill buffer construction, the write/flush loop of
`fill_file_thread`, the cleanup logic (`clean_exit` / `exit_handler` /
`signal_handler`), the target-size resolution of `main`, and the
throughput EMA of the status loop.

Machine integers (`size_t`, `unsigned long long`) are modelled as `Nat`
with explicit reduction modulo `2^64` exactly where the C code can wrap.
The OS write syscall is modelled by an oracle giving each call's result;
fallible paths return sum types.
-/

namespace Fillfs

/-- `2^64`, the modulus of C's 64-bit unsigned arithmetic. -/
def U64 : Nat := 2 ^ 64

/-- C's `SIZE_MAX` on a 64-bit platform (`2^64 - 1`). -/
def SIZE_MAX : Nat := U64 - 1

/-- C `unsigned long long` multiplication: the product wraps modulo `2^64`. -/
def u64mul (a b : Nat) : Nat := a * b % U64

/-- The C compile-time constant `1024ULL * 1024ULL * ... * 1024ULL`
(`k` factors), folded left in 64-bit arithmetic the way the compiler
evaluates it.  For `k ≤ 6` this is `1024^k`; for `k = 7, 8` the constant
itself wraps (`2^70 % 2^64 = 0`, `2^80 % 2^64 = 0`). -/
def pow1024 : Nat → Nat
  | 0 => 1
  | k + 1 => u64mul (pow1024 k) 1024

/-- The digit-consuming core of `strtoull(size_str, &endptr, 10)`:
consume decimal digits from the front, return the accumulated value and
the unconsumed remainder (what `endptr` points at). -/
def parseDigits : List Char → Nat → Nat × List Char
  | [], acc => (acc, [])
  | c :: rest, acc =>
    if c.isDigit then parseDigits rest (acc * 10 + (c.toNat - 48))
    else (acc, c :: rest)

/-- `strtoull` on a size token: parse leading decimal digits; on overflow
the C function saturates at `ULLONG_MAX`, hence the `min` with
`SIZE_MAX`. -/
def strtoull (s : List Char) : Nat × List Char :=
  let (v, rest) := parseDigits s 0
  (min v SIZE_MAX, rest)

/-- `parse_size` from src/fillfs.c lines 112-158: parse the decimal
prefix, inspect the first unconsumed character (lower-cased) as a unit
suffix, and multiply by the corresponding power-of-1024 constant in
wrapping 64-bit arithmetic.  `none` models the `exit(EXIT_FAILURE)` taken
on an unrecognized suffix. -/
def parse_size (s : List Char) : Option Nat :=
  let (size0, rest) := strtoull s
  match rest.head?.map Char.toLower with
  | none => some size0
  | some 'k' => some (u64mul size0 (pow1024 1))
  | some 'm' => some (u64mul size0 (pow1024 2))
  | some 'g' => some (u64mul size0 (pow1024 3))
  | some 't' => some (u64mul size0 (pow1024 4))
  | some 'p' => some (u64mul size0 (pow1024 5))
  | some 'e' => some (u64mul size0 (pow1024 6))
  | some 'z' => some (u64mul size0 (pow1024 7))
  | some 'y' => some (u64mul size0 (pow1024 8))
  | some _ => none

/-- The exponent `k` the spec assigns to each (lower-case) unit suffix:
`K = 1024^1` up to `Y = 1024^8`. -/
def suffixExp : Char → Option Nat
  | 'k' => some 1
  | 'm' => some 2
  | 'g' => some 3
  | 't' => some 4
  | 'p' => some 5
  | 'e' => some 6
  | 'z' => some 7
  | 'y' => some 8
  | _ => none

theorem pow1024_eq (k : Nat) : pow1024 k = 1024 ^ k % U64 := by
  induction k with
  | zero => rfl
  | succ k ih =>
    show u64mul (pow1024 k) 1024 = _
    rw [ih, u64mul, Nat.mod_mul_mod, ← pow_succ]

theorem u64mul_pow1024 (n k : Nat) : u64mul n (pow1024 k) = n * 1024 ^ k % U64 := by
  rw [u64mul, pow1024_eq, Nat.mul_mod_mod]

theorem parseDigits_append (ds rest : List Char) (h : ∀ c ∈ ds, c.isDigit)
    (h2 : ∀ c, rest.head? = some c → ¬ c.isDigit) (acc : Nat) :
    parseDigits (ds ++ rest) acc = ((parseDigits ds acc).1, rest) := by
  induction ds generalizing acc with
  | nil =>
    cases rest with
    | nil => rfl
    | cons c t =>
      have hc : ¬ c.isDigit = true := h2 c rfl
      simp [parseDigits, hc]
  | cons c t ih =>
    have hc : c.isDigit = true := h c (by simp)
    simp only [List.cons_append, parseDigits, hc, if_true]
    simpa using ih (fun x hx => h x (by simp [hx])) _

/-- `main` lines 364 and 418-419: `file_size` defaults to `SIZE_MAX`
(fill until full) and is replaced by `parse_size` of the size argument
when one is given. -/
def resolvedFileSize (sizeArg : Option (List Char)) : Option Nat :=
  match sizeArg with
  | none => some SIZE_MAX
  | some s => parse_size s

theorem suffixExp_inv {c : Char} {k : Nat} (h : suffixExp c = some k) :
    (c = 'k' ∧ k = 1) ∨ (c = 'm' ∧ k = 2) ∨ (c = 'g' ∧ k = 3) ∨ (c = 't' ∧ k = 4) ∨
    (c = 'p' ∧ k = 5) ∨ (c = 'e' ∧ k = 6) ∨ (c = 'z' ∧ k = 7) ∨ (c = 'y' ∧ k = 8) := by
  unfold suffixExp at h
  split at h <;> simp_all

example : parse_size "10K".toList = some 10240 := by decide
example : parse_size "1Z".toList = some 0 := by decide
example : parse_size "16E".toList = some 0 := by decide
example : parse_size "5Q".toList = none := by decide
example : parse_size "77".toList = some 77 := by decide

theorem parse_size_nosuffix (ds : List Char) (hds : ∀ c ∈ ds, c.isDigit) :
    parse_size ds = some (min (parseDigits ds 0).1 SIZE_MAX) := by
  obtain ⟨v, hv⟩ : ∃ v, parseDigits ds 0 = (v, []) :=
    ⟨(parseDigits ds 0).1, by simpa using parseDigits_append ds [] hds (by simp) 0⟩
  simp [parse_size, strtoull, hv]

theorem parse_size_withsuffix (ds : List Char) (hds : ∀ c ∈ ds, c.isDigit)
    (ch : Char) (hch : ¬ ch.isDigit) (k : Nat) (hk : suffixExp ch.toLower = some k) :
    parse_size (ds ++ [ch]) = some (min (parseDigits ds 0).1 SIZE_MAX * 1024 ^ k % U64) := by
  obtain ⟨v, hv, hv1⟩ : ∃ v, parseDigits (ds ++ [ch]) 0 = (v, [ch]) ∧ (parseDigits ds 0).1 = v :=
    ⟨(parseDigits ds 0).1, parseDigits_append ds [ch] hds (by simpa using hch) 0, rfl⟩
  rw [hv1]
  rcases suffixExp_inv hk with ⟨hc, rfl⟩ | ⟨hc, rfl⟩ | ⟨hc, rfl⟩ | ⟨hc, rfl⟩ |
    ⟨hc, rfl⟩ | ⟨hc, rfl⟩ | ⟨hc, rfl⟩ | ⟨hc, rfl⟩ <;>
    simp [parse_size, strtoull, hv, hc, u64mul_pow1024]

theorem parse_size_badsuffix (ds : List Char) (hds : ∀ c ∈ ds, c.isDigit)
    (ch : Char) (hch : ¬ ch.isDigit) (hk : suffixExp ch.toLower = none) :
    parse_size (ds ++ [ch]) = none := by
  obtain ⟨v, hv⟩ : ∃ v, parseDigits (ds ++ [ch]) 0 = (v, [ch]) :=
    ⟨(parseDigits ds 0).1, parseDigits_append ds [ch] hds (by simpa using hch) 0⟩
  simp only [parse_size, strtoull, hv, List.head?_cons, Option.map_some']
  split <;> simp_all [suffixExp]

/-- C6 counterexample: the claim says the token `1Z` parses to
`1 × 1024^7 = 2^70`, but the C constant `1024ULL * ... * 1024ULL`
(7 factors) wraps to `2^70 mod 2^64 = 0`, so `parse_size("1Z")`
returns `0`, not `2^70`. -/
theorem parse_size_zetta_counterexample :
    ¬ parse_size "1Z".toList = some (1 * 1024 ^ 7) := by decide

/-- C6 (amended): for a size token made of decimal digits followed by a
recognized unit suffix, parsing yields `N × 1024^k` **reduced modulo
`2^64`** (the multiplication is wrapping 64-bit arithmetic; the value is
the exact product only when it fits); a token of digits alone parses as
a raw byte count (saturated at `SIZE_MAX` by `strtoull`); a non-digit
trailing character that is not a recognized suffix makes `parse_size`
abort the program (modelled as `none`). -/
theorem parse_size_grammar (ds : List Char) (hds : ∀ c ∈ ds, c.isDigit) :
    parse_size ds = some (min (parseDigits ds 0).1 SIZE_MAX) ∧
    (∀ ch k, ¬ ch.isDigit → suffixExp ch.toLower = some k →
      parse_size (ds ++ [ch]) = some (min (parseDigits ds 0).1 SIZE_MAX * 1024 ^ k % U64)) ∧
    (∀ ch, ¬ ch.isDigit → suffixExp ch.toLower = none →
      parse_size (ds ++ [ch]) = none) :=
  ⟨parse_size_nosuffix ds hds,
   fun ch k hch hk => parse_size_withsuffix ds hds ch hch k hk,
   fun ch hch hk => parse_size_badsuffix ds hds ch hch hk⟩

/-- Witness for `parse_size_grammar` at the concrete token `10K`. -/
theorem parse_size_grammar_witness :
    parse_size (('1' :: '0' :: []) ++ ['K']) =
      some (min (parseDigits ('1' :: '0' :: []) 0).1 SIZE_MAX * 1024 ^ 1 % U64) :=
  (parse_size_grammar ('1' :: '0' :: []) (by decide)).2.1 'K' 1 (by decide) (by decide)

/-- C10: size parsing multiplies in wrapping 64-bit unsigned arithmetic
with no overflow check: the token `16E` stands for `16 × 1024^6 = 2^64`,
which wraps to `0`; `parse_size` silently returns that wrapped value,
and `main` then uses it as the byte target (`file_size`). -/
theorem parse_size_wraps :
    parse_size "16E".toList = some (16 * 1024 ^ 6 % U64) ∧
    16 * 1024 ^ 6 % U64 = 0 ∧
    resolvedFileSize (some "16E".toList) = some 0 :=
  ⟨by decide, by decide, by decide⟩

/-! ## The write loop of `fill_file_thread` (lines 208-311) -/

/-- The errno of a failed `write`, as far as the loop distinguishes it:
`ENOSPC` is the disk-full terminal condition, anything else is a write
error. -/
inductive Errno where
  | enospc
  | other
deriving DecidableEq

/-- Result of one `write(fd, buffer, n)` call: the actual byte count
written, or `-1` with an errno. -/
inductive WriteResult where
  | ok (n : Nat)
  | err (e : Errno)
deriving DecidableEq

/-- How the write loop exited, carrying the final value of
`total_written_local`. -/
inductive Outcome where
  | targetReached (total : Nat)
  | diskFull (total : Nat)
  | writeError (total : Nat)
  | outOfFuel (total : Nat)
deriving DecidableEq

/-- The `total_written_local` value an outcome carries. -/
def Outcome.total : Outcome → Nat
  | .targetReached t => t
  | .diskFull t => t
  | .writeError t => t
  | .outOfFuel t => t

/-- One syscall issued by the writer thread on the open fd. -/
inductive SysOp where
  | write (requested actual : Nat)
  | writeFail (e : Errno)
  | fsync
  | close
deriving DecidableEq

/-- The `while (total_written_local < params->file_size)` loop, lines
271-297.  `oracle i req` is the OS's answer to the `i`-th `write` call
of `req` bytes.  `fuel` bounds the number of iterations so the model is
total; `outOfFuel` marks an execution cut short by the bound (it never
occurs when fuel is sufficient).  Returns the exit reason and the trace
of write syscalls issued. -/
def fillLoop (oracle : Nat → Nat → WriteResult) (blockSize fileSize : Nat) :
    Nat → Nat → Nat → Outcome × List SysOp
  | fuel, i, total =>
    if total < fileSize then
      match fuel with
      | 0 => (Outcome.outOfFuel total, [])
      | fuel' + 1 =>
        let remaining := fileSize - total
        let bytesToWrite := if remaining < blockSize then remaining else blockSize
        match oracle i bytesToWrite with
        | WriteResult.err Errno.enospc => (Outcome.diskFull total, [SysOp.writeFail Errno.enospc])
        | WriteResult.err Errno.other => (Outcome.writeError total, [SysOp.writeFail Errno.other])
        | WriteResult.ok n =>
          match fillLoop oracle blockSize fileSize fuel' (i + 1) (total + n) with
          | (out, tr) => (out, SysOp.write bytesToWrite n :: tr)
    else (Outcome.targetReached total, [])

/-- Result of one run of `fill_file_thread` after a successful `malloc`
and `open`: the loop's exit reason, the full syscall trace on the fd,
and the thread's shared flags.  `flushOk` is the outcome of the final
`fsync`. -/
structure ThreadResult where
  outcome : Outcome
  ops : List SysOp
  error : Bool
  done : Bool
deriving DecidableEq

/-- Lines 270-310 of `fill_file_thread`: run the write loop, then fsync
(failure sets the error flag), close, mark done. -/
def fill_file_thread (oracle : Nat → Nat → WriteResult) (flushOk : Bool)
    (blockSize fileSize fuel : Nat) : ThreadResult :=
  let r := fillLoop oracle blockSize fileSize fuel 0 0
  let writeErr : Bool := match r.1 with
    | Outcome.writeError _ => true
    | _ => false
  { outcome := r.1
    ops := r.2 ++ [SysOp.fsync, SysOp.close]
    error := writeErr || !flushOk
    done := true }

/-- `main` lines 641-648: `clean_exit(EXIT_FAILURE)` iff the writer
thread reported an error, else `clean_exit(EXIT_SUCCESS)`; `clean_exit`
passes the code to `exit` unchanged. -/
def mainExitCode (r : ThreadResult) : Nat := if r.error then 1 else 0

/-- The successive values of `total_written_local` (equally, of the
shared `params->total_written`) after each successful write of a trace,
starting from `start`. -/
def runningTotals (start : Nat) : List SysOp → List Nat
  | [] => []
  | SysOp.write _ n :: rest => (start + n) :: runningTotals (start + n) rest
  | _ :: rest => runningTotals start rest

/-- Number of fsync calls in a trace. -/
def fsyncCount (ops : List SysOp) : Nat := ops.countP (fun op => op == SysOp.fsync)

/-- Number of successful write calls in a trace. -/
def writeCount (ops : List SysOp) : Nat :=
  ops.countP (fun op => match op with | SysOp.write _ _ => true | _ => false)

example :
    fillLoop (fun _ req => WriteResult.ok req) 2 3 3 0 0 =
      (Outcome.targetReached 3, [SysOp.write 2 2, SysOp.write 1 1]) := by decide

theorem fillLoop_stop (oracle : Nat → Nat → WriteResult) (b fs fuel i total : Nat)
    (h : ¬ total < fs) :
    fillLoop oracle b fs fuel i total = (Outcome.targetReached total, []) := by
  rw [fillLoop.eq_def]
  simp only [if_neg h]

theorem fillLoop_fuel0 (oracle : Nat → Nat → WriteResult) (b fs i total : Nat)
    (h : total < fs) :
    fillLoop oracle b fs 0 i total = (Outcome.outOfFuel total, []) := by
  rw [fillLoop, if_pos h]

theorem fillLoop_step (oracle : Nat → Nat → WriteResult) (b fs fuel i total : Nat)
    (h : total < fs) :
    fillLoop oracle b fs (fuel + 1) i total =
      match oracle i (if fs - total < b then fs - total else b) with
      | WriteResult.err Errno.enospc => (Outcome.diskFull total, [SysOp.writeFail Errno.enospc])
      | WriteResult.err Errno.other => (Outcome.writeError total, [SysOp.writeFail Errno.other])
      | WriteResult.ok n =>
        ((fillLoop oracle b fs fuel (i + 1) (total + n)).1,
         SysOp.write (if fs - total < b then fs - total else b) n ::
           (fillLoop oracle b fs fuel (i + 1) (total + n)).2) := by
  rw [fillLoop, if_pos h]

/-- Invariant of the write loop: as long as every successful write
returns at most as many bytes as requested (short writes allowed),
`total_written` never exceeds `file_size` — neither in the final outcome
nor at any intermediate point of the trace. -/
theorem fillLoop_total_le (oracle : Nat → Nat → WriteResult)
    (hshort : ∀ i r n, oracle i r = WriteResult.ok n → n ≤ r)
    (blockSize fileSize : Nat) :
    ∀ fuel i total, total ≤ fileSize →
      (fillLoop oracle blockSize fileSize fuel i total).1.total ≤ fileSize ∧
      ∀ t ∈ runningTotals total (fillLoop oracle blockSize fileSize fuel i total).2,
        t ≤ fileSize := by
  intro fuel
  induction fuel with
  | zero =>
    intro i total htot
    by_cases h : total < fileSize
    · rw [fillLoop_fuel0 _ _ _ _ _ h]
      exact ⟨htot, by simp [runningTotals]⟩
    · rw [fillLoop_stop _ _ _ _ _ _ h]
      exact ⟨htot, by simp [runningTotals]⟩
  | succ fuel ih =>
    intro i total htot
    by_cases h : total < fileSize
    · rw [fillLoop_step _ _ _ _ _ _ h]
      have hbtw_le : (if fileSize - total < blockSize then fileSize - total else blockSize) ≤
          fileSize - total := by split <;> omega
      rcases ho : oracle i (if fileSize - total < blockSize then fileSize - total else blockSize)
        with n | e
      · have hn := hshort _ _ _ ho
        have htot' : total + n ≤ fileSize := by omega
        obtain ⟨h1, h2⟩ := ih (i + 1) (total + n) htot'
        simp only [ho]
        refine ⟨h1, ?_⟩
        intro t ht
        simp only [runningTotals, List.mem_cons] at ht
        rcases ht with rfl | ht
        · exact htot'
        · exact h2 t ht
      · cases e <;> simp only [ho] <;> exact ⟨htot, by simp [runningTotals]⟩
    · rw [fillLoop_stop _ _ _ _ _ _ h]
      exact ⟨htot, by simp [runningTotals]⟩

/-- Termination of the write loop: with a positive block size, every
write succeeding (returning between 1 byte and the requested count), and
fuel at least the remaining byte count, the loop exits with
`TargetReached` at exactly `file_size` bytes. -/
theorem fillLoop_terminates (oracle : Nat → Nat → WriteResult)
    (hok : ∀ i r, 1 ≤ r → ∃ n, oracle i r = WriteResult.ok n ∧ 1 ≤ n ∧ n ≤ r)
    (blockSize fileSize : Nat) (hb : 0 < blockSize) :
    ∀ fuel i total, total ≤ fileSize → fileSize - total ≤ fuel →
      (fillLoop oracle blockSize fileSize fuel i total).1 =
        Outcome.targetReached fileSize := by
  intro fuel
  induction fuel with
  | zero =>
    intro i total htot hfuel
    have heq : total = fileSize := by omega
    rw [fillLoop_stop _ _ _ _ _ _ (by omega), heq]
  | succ fuel ih =>
    intro i total htot hfuel
    by_cases h : total < fileSize
    · rw [fillLoop_step _ _ _ _ _ _ h]
      have hbtw1 : 1 ≤ (if fileSize - total < blockSize then fileSize - total else blockSize) := by
        split <;> omega
      have hbtw_le : (if fileSize - total < blockSize then fileSize - total else blockSize) ≤
          fileSize - total := by split <;> omega
      obtain ⟨n, ho, hn1, hn2⟩ := hok i _ hbtw1
      simp only [ho]
      exact ih (i + 1) (total + n) (by omega) (by omega)
    · have heq : total = fileSize := by omega
      rw [fillLoop_stop _ _ _ _ _ _ h, heq]

/-- The write loop never issues an fsync: every element of its trace is
a `write` or a failed `write`. -/
theorem fillLoop_no_fsync (oracle : Nat → Nat → WriteResult) (b fs : Nat) :
    ∀ fuel i total, fsyncCount (fillLoop oracle b fs fuel i total).2 = 0 := by
  intro fuel
  induction fuel with
  | zero =>
    intro i total
    by_cases h : total < fs
    · rw [fillLoop_fuel0 _ _ _ _ _ h]; rfl
    · rw [fillLoop_stop _ _ _ _ _ _ h]; rfl
  | succ fuel ih =>
    intro i total
    by_cases h : total < fs
    · rw [fillLoop_step _ _ _ _ _ _ h]
      rcases ho : oracle i (if fs - total < b then fs - total else b) with n | e
      · simp only [ho]
        simpa [fsyncCount] using ih (i + 1) (total + n)
      · cases e <;> simp only [ho] <;> rfl
    · rw [fillLoop_stop _ _ _ _ _ _ h]; rfl

/-- C1: for a bounded job in which every write succeeds (each returns
between 1 byte and the requested count, so short writes are tolerated)
and the block size is positive, the write loop terminates with
`bytes_written` exactly equal to the target at `TargetReached`, and no
intermediate value of `bytes_written` ever exceeds the target. -/
theorem bounded_fill_reaches_target (oracle : Nat → Nat → WriteResult)
    (blockSize fileSize fuel : Nat) (hb : 0 < blockSize)
    (hok : ∀ i r, 1 ≤ r → ∃ n, oracle i r = WriteResult.ok n ∧ 1 ≤ n ∧ n ≤ r)
    (hshort : ∀ i r n, oracle i r = WriteResult.ok n → n ≤ r)
    (hfuel : fileSize ≤ fuel) :
    (fillLoop oracle blockSize fileSize fuel 0 0).1 = Outcome.targetReached fileSize ∧
    ∀ t ∈ runningTotals 0 (fillLoop oracle blockSize fileSize fuel 0 0).2, t ≤ fileSize :=
  ⟨fillLoop_terminates oracle hok blockSize fileSize hb fuel 0 0 (by omega) (by omega),
    (fillLoop_total_le oracle hshort blockSize fileSize fuel 0 0 (by omega)).2⟩

/-- Witness for `bounded_fill_reaches_target`: block size 2, target 3,
an oracle that always writes the full requested count. -/
theorem bounded_fill_reaches_target_witness :
    (fillLoop (fun _ req => WriteResult.ok req) 2 3 3 0 0).1 = Outcome.targetReached 3 ∧
    ∀ t ∈ runningTotals 0 (fillLoop (fun _ req => WriteResult.ok req) 2 3 3 0 0).2, t ≤ 3 :=
  bounded_fill_reaches_target (fun _ req => WriteResult.ok req) 2 3 3 (by decide)
    (fun i r hr => ⟨r, rfl, hr, Nat.le_refl r⟩)
    (fun i r n h => by cases h; exact Nat.le_refl r) (by decide)

/-- C2: a run whose write loop stops on ENOSPC with a succeeding final
flush is not an error: the error flag stays clear, the process exits 0,
and `total_written` is exactly what was written before the failed
write. -/
theorem enospc_is_success (oracle : Nat → Nat → WriteResult)
    (blockSize fileSize fuel t : Nat)
    (h : (fillLoop oracle blockSize fileSize fuel 0 0).1 = Outcome.diskFull t) :
    (fill_file_thread oracle true blockSize fileSize fuel).error = false ∧
    mainExitCode (fill_file_thread oracle true blockSize fileSize fuel) = 0 ∧
    (fill_file_thread oracle true blockSize fileSize fuel).outcome.total = t := by
  simp [fill_file_thread, mainExitCode, h, Outcome.total]

/-- Witness for `enospc_is_success`: the very first write reports
ENOSPC, 0 bytes written, exit code 0. -/
theorem enospc_is_success_witness :
    (fill_file_thread (fun _ _ => WriteResult.err Errno.enospc) true 4 10 3).error = false ∧
    mainExitCode (fill_file_thread (fun _ _ => WriteResult.err Errno.enospc) true 4 10 3) = 0 ∧
    (fill_file_thread (fun _ _ => WriteResult.err Errno.enospc) true 4 10 3).outcome.total = 0 :=
  enospc_is_success (fun _ _ => WriteResult.err Errno.enospc) 4 10 3 0 (by decide)

/-- C7: a job with `target_bytes = 0` completes immediately with
`TargetReached` and issues no write at all: the loop returns at once
with an empty trace (for any oracle, block size and fuel, including
fuel 0), and the thread's syscall trace contains zero writes. -/
theorem zero_target_no_writes (oracle : Nat → Nat → WriteResult)
    (flushOk : Bool) (blockSize fuel i : Nat) :
    fillLoop oracle blockSize 0 fuel i 0 = (Outcome.targetReached 0, []) ∧
    writeCount (fill_file_thread oracle flushOk blockSize 0 fuel).ops = 0 := by
  have h0 : fillLoop oracle blockSize 0 fuel i 0 = (Outcome.targetReached 0, []) :=
    fillLoop_stop _ _ _ _ _ _ (by omega)
  have h1 : fillLoop oracle blockSize 0 fuel 0 0 = (Outcome.targetReached 0, []) :=
    fillLoop_stop _ _ _ _ _ _ (by omega)
  exact ⟨h0, by simp [fill_file_thread, h1, writeCount]⟩

/-- C5 counterexample: the claim's periodic 60-second flush does not
exist.  The writer never consults a clock, so its syscall trace is a
function of the write results alone and is independent of how long the
run takes: this five-block run — which on slow storage lasts
arbitrarily longer than 60 seconds — contains exactly one fsync (the
terminal one), not the at-least-two the claimed 60-second cadence would
require of any run longer than a minute. -/
theorem no_periodic_flush_counterexample :
    writeCount (fill_file_thread (fun _ req => WriteResult.ok req) true 1 5 5).ops = 5 ∧
    ¬ 2 ≤ fsyncCount (fill_file_thread (fun _ req => WriteResult.ok req) true 1 5 5).ops := by
  decide

/-- C5 (amended): every run issues exactly one full flush,
unconditionally, at loop termination — the syscall trace is the loop's
writes followed by one fsync and the close, with no in-loop flush — and
a flush failure is fatal: it sets the error flag and makes the process
exit 1. -/
theorem flush_once_at_termination (oracle : Nat → Nat → WriteResult) (flushOk : Bool)
    (blockSize fileSize fuel : Nat) :
    fsyncCount (fill_file_thread oracle flushOk blockSize fileSize fuel).ops = 1 ∧
    (fill_file_thread oracle flushOk blockSize fileSize fuel).ops =
      (fillLoop oracle blockSize fileSize fuel 0 0).2 ++ [SysOp.fsync, SysOp.close] ∧
    (flushOk = false →
      (fill_file_thread oracle flushOk blockSize fileSize fuel).error = true ∧
      mainExitCode (fill_file_thread oracle flushOk blockSize fileSize fuel) = 1) := by
  refine ⟨?_, rfl, ?_⟩
  · show fsyncCount ((fillLoop oracle blockSize fileSize fuel 0 0).2 ++
      [SysOp.fsync, SysOp.close]) = 1
    have h := fillLoop_no_fsync oracle blockSize fileSize fuel 0 0
    rw [fsyncCount] at h ⊢
    rw [List.countP_append, h]
    rfl
  · rintro rfl
    refine ⟨by simp [fill_file_thread], by simp [fill_file_thread, mainExitCode]⟩

/-- Witness for `flush_once_at_termination`: a failing flush after an
immediate ENOSPC gives one fsync and exit code 1. -/
theorem flush_once_at_termination_witness :
    fsyncCount (fill_file_thread (fun _ _ => WriteResult.err Errno.enospc) false 1 5 5).ops = 1 ∧
    (fill_file_thread (fun _ _ => WriteResult.err Errno.enospc) false 1 5 5).ops =
      (fillLoop (fun _ _ => WriteResult.err Errno.enospc) 1 5 5 0 0).2 ++
        [SysOp.fsync, SysOp.close] ∧
    (false = false →
      (fill_file_thread (fun _ _ => WriteResult.err Errno.enospc) false 1 5 5).error = true ∧
      mainExitCode (fill_file_thread (fun _ _ => WriteResult.err Errno.enospc) false 1 5 5) = 1) :=
  flush_once_at_termination (fun _ _ => WriteResult.err Errno.enospc) false 1 5 5

/-! ## Cleanup: `clean_exit`, `exit_handler`, `signal_handler`
(lines 67-104) and the sentinel registration in `main` (lines 457-497) -/

/-- `unlink(2)` on the model file system (a list of existing paths):
remove the path; unlinking a non-existent path changes nothing, and
`clean_exit`/`exit_handler` ignore its return value, so no error is
visible to the caller. -/
def unlinkPath (p : String) (fs : List String) : List String := fs.filter (fun q => q != p)

/-- The file-system effect shared by `clean_exit`, `exit_handler` and
`signal_handler`: unlink `g_hidden_filename` iff it was set
(`g_hidden_filename[0] != '\x00'`, modelled as `some`). -/
def cleanupFiles (hidden : Option String) (fs : List String) : List String :=
  match hidden with
  | some p => unlinkPath p fs
  | none => fs

/-- `clean_exit(success)` lines 74-84: run the cleanup, then
`exit(success)` — the exit code is the argument, independent of the
file system. -/
def clean_exit (success : Nat) (hidden : Option String) (fs : List String) :
    Nat × List String :=
  (success, cleanupFiles hidden fs)

/-- `generate_file_path` with `FILLFS_FILE_NAME`: the sentinel path
`<dir>/.fillfs`. -/
def sentinelPath (dir : String) : String := dir ++ "/.fillfs"

/-- `main` lines 457-497: `g_hidden_filename` is written (with the
sentinel path) only in the directory branch; in the existing-regular-
file branch it stays empty, so cleanup has nothing registered. -/
def registeredHidden (isDirectory : Bool) (dir : String) : Option String :=
  if isDirectory then some (sentinelPath dir) else none

/-- C3: cleanup is idempotent and safe — running the cleanup effect any
number of times (explicit `clean_exit`, `atexit` handler, signal
handler all share it) is the same as running it once; `clean_exit`
always returns the caller's exit code (no caller-visible error, even
when the sentinel is already gone); in the preserving (existing-file)
variant nothing is ever unlinked; and in the directory variant no path
other than the sentinel is ever touched. -/
theorem cleanup_idempotent_safe (isDir : Bool) (dir : String) (fs : List String) :
    cleanupFiles (registeredHidden isDir dir) (cleanupFiles (registeredHidden isDir dir) fs) =
      cleanupFiles (registeredHidden isDir dir) fs ∧
    (∀ code, (clean_exit code (registeredHidden isDir dir) fs).1 = code) ∧
    (isDir = false → cleanupFiles (registeredHidden isDir dir) fs = fs) ∧
    (∀ q, q ≠ sentinelPath dir →
      (q ∈ cleanupFiles (registeredHidden isDir dir) fs ↔ q ∈ fs)) := by
  cases isDir
  · refine ⟨rfl, fun code => rfl, fun _ => rfl, fun q hq => Iff.rfl⟩
  · refine ⟨?_, fun code => rfl, by simp, ?_⟩
    · simp only [registeredHidden, cleanupFiles, unlinkPath, if_true]
      rw [List.filter_filter]
      simp
    · intro q hq
      simp only [registeredHidden, cleanupFiles, unlinkPath, if_true]
      simp [List.mem_filter, hq]

/-- Witness for `cleanup_idempotent_safe`: the preserving variant with a
user file present — cleanup twice leaves it untouched and exits with
the requested code. -/
theorem cleanup_idempotent_safe_witness :
    cleanupFiles (registeredHidden false "/tmp") (cleanupFiles (registeredHidden false "/tmp")
      ["/tmp/user.dat"]) = cleanupFiles (registeredHidden false "/tmp") ["/tmp/user.dat"] ∧
    (∀ code, (clean_exit code (registeredHidden false "/tmp") ["/tmp/user.dat"]).1 = code) ∧
    (false = false →
      cleanupFiles (registeredHidden false "/tmp") ["/tmp/user.dat"] = ["/tmp/user.dat"]) ∧
    (∀ q, q ≠ sentinelPath "/tmp" →
      (q ∈ cleanupFiles (registeredHidden false "/tmp") ["/tmp/user.dat"] ↔
        q ∈ ["/tmp/user.dat"])) :=
  cleanup_idempotent_safe false "/tmp" ["/tmp/user.dat"]

/-! ## The fill buffer (lines 232-245) -/

/-- Lines 232-245 of `fill_file_thread`: the buffer is zero-filled when
`use_zero` is set, filled from `rand() % 256` when only `use_random` is
set, and zero-filled by default.  `rng i` models the `i`-th `rand()`
call of the seeded PRNG. -/
def mkBuffer (use_zero use_random : Bool) (block_size : Nat) (rng : Nat → Nat) : List Nat :=
  if use_zero then List.replicate block_size 0
  else if use_random then (List.range block_size).map (fun i => rng i % 256)
  else List.replicate block_size 0

/-- C8: when both zero and random are requested, zero wins: the buffer
is entirely 0x00 bytes, and the PRNG is never consulted (the buffer does
not depend on the generator). -/
theorem zero_overrides_random (block_size : Nat) (rng rng' : Nat → Nat) :
    mkBuffer true true block_size rng = List.replicate block_size 0 ∧
    mkBuffer true true block_size rng = mkBuffer true true block_size rng' := by
  simp [mkBuffer]

/-! ## Existing-file target resolution (`main` lines 474-497) and the
frame property on the file's length -/

/-- `main` lines 482-491: the effective byte target for an existing
regular file — the whole file when the size argument was omitted
(`file_size == SIZE_MAX`), otherwise the smaller of the request and the
file's current size (`st.st_size`). -/
def effectiveFileSize (file_size file_actual_size : Nat) : Nat :=
  if file_size = SIZE_MAX then file_actual_size
  else if file_size < file_actual_size then file_size else file_actual_size

/-- The `open(2)` flag sets chosen in `fill_file_thread` lines 252-259. -/
structure OpenFlags where
  wronly : Bool
  creat : Bool
  trunc : Bool
deriving DecidableEq

/-- Existing file: `O_WRONLY` only (no truncation); sentinel file:
`O_WRONLY | O_CREAT | O_TRUNC`. -/
def openFlagsFor (existing_file : Bool) : OpenFlags :=
  if existing_file then ⟨true, false, false⟩ else ⟨true, true, true⟩

/-- POSIX length of a regular file of original length `origLen` after it
is opened (truncating or not) and `totalWritten` bytes are written
sequentially starting at offset 0 (the fd is fresh, with no `O_APPEND`
and no seek). -/
def finalLength (truncOnOpen : Bool) (origLen totalWritten : Nat) : Nat :=
  if truncOnOpen then totalWritten else max origLen totalWritten

/-- C4: for an existing regular file the effective target is
`min(requested, current_size)` (the `SIZE_MAX` sentinel meaning "no size
given"), the file is opened without `O_TRUNC`, and — because every
write is a short-or-full write starting at offset 0 and the loop total
never passes the effective target — the file's length after the run
equals its length before it: the engine never grows or shrinks the
file. -/
theorem existing_file_preserved (file_size file_actual_size : Nat)
    (hact : file_actual_size ≤ SIZE_MAX)
    (oracle : Nat → Nat → WriteResult)
    (hshort : ∀ i r n, oracle i r = WriteResult.ok n → n ≤ r)
    (blockSize fuel : Nat) :
    effectiveFileSize file_size file_actual_size = min file_size file_actual_size ∧
    (openFlagsFor true).trunc = false ∧
    finalLength (openFlagsFor true).trunc file_actual_size
      ((fillLoop oracle blockSize (effectiveFileSize file_size file_actual_size)
        fuel 0 0).1.total) = file_actual_size := by
  have heff : effectiveFileSize file_size file_actual_size = min file_size file_actual_size := by
    rw [effectiveFileSize]
    split
    · omega
    · split <;> omega
  refine ⟨heff, rfl, ?_⟩
  have hle := (fillLoop_total_le oracle hshort blockSize
    (effectiveFileSize file_size file_actual_size) fuel 0 0 (Nat.zero_le _)).1
  have heff_le : effectiveFileSize file_size file_actual_size ≤ file_actual_size := by
    rw [effectiveFileSize]
    split
    · omega
    · split <;> omega
  show finalLength false file_actual_size _ = file_actual_size
  rw [finalLength, if_neg (by simp)]
  exact Nat.max_eq_left (le_trans hle heff_le)

/-- Witness for `existing_file_preserved`: request 10 bytes against a
4-byte file with full-block writes — the target clamps to 4 and the
length stays 4. -/
theorem existing_file_preserved_witness :
    effectiveFileSize 10 4 = min 10 4 ∧
    (openFlagsFor true).trunc = false ∧
    finalLength (openFlagsFor true).trunc 4
      ((fillLoop (fun _ req => WriteResult.ok req) 2 (effectiveFileSize 10 4)
        5 0 0).1.total) = 4 :=
  existing_file_preserved 10 4 (by decide) (fun _ req => WriteResult.ok req)
    (fun i r n h => by cases h; exact Nat.le_refl r) 2 5

/-! ## The status loop's throughput filter (`main` lines 519-543) -/

/-- `const double alpha = 0.2`; the status loop's real arithmetic is
modelled over `ℚ`. -/
def alphaEMA : ℚ := 1 / 5

/-- The `filtered_throughput_mb_s < 1e-9` reseed threshold of line
537. -/
def emaThreshold : ℚ := 1 / 1000000000

/-- Lines 536-543: one status sample updates the filtered throughput —
it is reseeded with the instantaneous value whenever the current
filtered value is below `1e-9`, and blended with weight `alpha`
otherwise. -/
def emaStep (prev instant : ℚ) : ℚ :=
  if prev < emaThreshold then instant
  else alphaEMA * instant + (1 - alphaEMA) * prev

/-- The displayed (filtered) throughput after a sequence of
instantaneous-throughput samples; `filtered_throughput_mb_s` starts at
`0.0` (line 519). -/
def emaRun (instants : List ℚ) : ℚ := instants.foldl emaStep 0

/-- The update rule C9 describes, for comparison with `emaStep`: every
sample after the first blends unconditionally. -/
def specEmaStep (prev instant : ℚ) : ℚ :=
  alphaEMA * instant + (1 - alphaEMA) * prev

/-- The EMA the specification describes, for comparison with `emaRun`:
the first sample seeds the average directly with its instantaneous
value, every later sample blends with `ema = α·instant +
(1-α)·ema_prev`. -/
def specEmaRun : List ℚ → ℚ
  | [] => 0
  | x :: xs => xs.foldl specEmaStep x

/-- C9 counterexample: on the sample sequence `[0, 5]` the code displays
`5` — the first sample's instantaneous throughput `0` leaves the filter
below the `1e-9` threshold, so the second sample reseeds instead of
blending — while the claimed first-sample-seeded EMA yields
`0.2·5 + 0.8·0 = 1`. -/
theorem ema_seed_counterexample :
    emaRun [0, 5] = 5 ∧ specEmaRun [0, 5] = 1 ∧ emaRun [0, 5] ≠ specEmaRun [0, 5] := by
  norm_num [emaRun, specEmaRun, emaStep, specEmaStep, alphaEMA, emaThreshold]

theorem foldl_ema_eq (xs : List ℚ) : ∀ x, emaThreshold ≤ x →
    (∀ y ∈ xs, emaThreshold ≤ y) →
    List.foldl emaStep x xs = List.foldl specEmaStep x xs ∧
    emaThreshold ≤ List.foldl emaStep x xs := by
  induction xs with
  | nil => exact fun x hx _ => ⟨rfl, hx⟩
  | cons y ys ih =>
    intro x hx hall
    have hy : emaThreshold ≤ y := hall y (by simp)
    have hstep : emaStep x y = specEmaStep x y := by
      rw [emaStep, if_neg (by linarith)]
      rfl
    have hge : emaThreshold ≤ emaStep x y := by
      rw [hstep, specEmaStep, alphaEMA]
      linarith
    obtain ⟨h1, h2⟩ := ih (emaStep x y) hge (fun z hz => hall z (by simp [hz]))
    refine ⟨?_, by simpa [List.foldl] using h2⟩
    simp only [List.foldl]
    rw [h1, hstep]

/-- C9 (amended): the displayed throughput follows the claimed EMA
recurrence `ema = 0.2·instant + 0.8·ema_prev` with the first sample
seeding the average directly — provided every instantaneous sample is
at least `1e-9` MB/s.  (The code's seeding condition is
`filtered < 1e-9`, not "is this the first sample"; below the threshold
it reseeds instead of blending, as the counterexample shows.) -/
theorem ema_matches_spec (instants : List ℚ)
    (hpos : ∀ y ∈ instants, emaThreshold ≤ y) :
    emaRun instants = specEmaRun instants := by
  cases instants with
  | nil => rfl
  | cons x xs =>
    have hx : emaThreshold ≤ x := hpos x (by simp)
    have h0 : emaStep 0 x = x := by
      rw [emaStep, if_pos]
      rw [emaThreshold]
      norm_num
    rw [emaRun, specEmaRun]
    simp only [List.foldl]
    rw [h0]
    exact (foldl_ema_eq xs x hx (fun y hy => hpos y (by simp [hy]))).1

/-- Witness for `ema_matches_spec`: samples `[1, 2]` are above the
threshold, and the displayed value equals the spec's EMA. -/
theorem ema_matches_spec_witness : emaRun [1, 2] = specEmaRun [1, 2] :=
  ema_matches_spec [1, 2] (by
    intro y hy
    rcases List.mem_cons.mp hy with rfl | hy
    · rw [emaThreshold]; norm_num
    · rcases List.mem_cons.mp hy with rfl | hy
      · rw [emaThreshold]; norm_num
      · simp at hy)
